import Mathlib

/-!
Verification of the GitCore email handler (`tools/email-handler/src/main.py`).

The Python module is shallowly embedded below.  External effects (the Gmail
API and the `gh` subprocess) are passed in as an explicit environment, and the
loop is modelled as a function producing the ordered trace of the external
calls it makes.  Pure helpers (`parse_github_email`, `check_workflow_status`)
are embedded as pure Lean functions.
-/

namespace EmailHandler

/-!
Embedding of the regular expression used by `parse_github_email`:

  re.search of the pattern  \[([\w-]+/[\w-]+)\] Run failed: (.+?) -

over the subject-plus-snippet text.  The embedding implements Python's
backtracking semantics for this concrete pattern, specialised as follows.

Character class: `[\w-]` is a word character or a hyphen.  We read `\w` in
ASCII (letters, digits, underscore); Python's Unicode `\w` is wider, but
every character the claims exercise is ASCII.

Greedy groups: both repetitions `[\w-]+` are greedy and each is followed in
the pattern by a character (`/` resp. `]`) that is itself outside the class,
so backtracking can never shorten them: each one consumes exactly the maximal
run of class characters (`takeWhile`/`dropWhile`) and the following literal
character must come right after the run.

Lazy group: `(.+?)` is lazy and `.` excludes the newline, so the group is the
shortest non-empty newline-free prefix that is immediately followed by the
terminator, a space then a hyphen.

Search: `re.search` returns the match at the leftmost starting position at
which the whole pattern matches, trying positions left to right.
-/

/-- The characters matched by the character class of the pattern: an ASCII
word character (letter, digit, underscore) or a hyphen. -/
def isWordOrHyphen (c : Char) : Bool :=
  c.isAlphanum || c == '_' || c == '-'

/-- The fixed literal that the pattern requires between the closing bracket
of the repository token and the workflow group. -/
def litRunFailed : List Char := " Run failed: ".toList

/-- Match a literal sequence at the front of the input, returning the rest. -/
def stripLit : List Char → List Char → Option (List Char)
  | [], s => some s
  | _ :: _, [] => none
  | l :: ls, c :: cs => if c = l then stripLit ls cs else none

/-- Does the input begin with the terminator of the lazy group: a space,
then a hyphen? -/
def startsWithTerm : List Char → Bool
  | c1 :: c2 :: _ => c1 == ' ' && c2 == '-'
  | _ => false

/-- The lazy group `(.+?)` followed by the terminator: the shortest non-empty
newline-free prefix immediately followed by space-hyphen. -/
def lazyWorkflow : List Char → Option (List Char)
  | [] => none
  | c :: rest =>
    if c = '\n' then none
    else if startsWithTerm rest then some [c]
    else (lazyWorkflow rest).map (fun w => c :: w)

/-- Attempt to match the whole pattern at the current position.  On success
returns the first capture (the repository token, owner slash name) and the
second capture (the workflow name). -/
def matchAt : List Char → Option (List Char × List Char)
  | [] => none
  | c0 :: rest =>
    if c0 = '[' then
      if rest.takeWhile isWordOrHyphen = [] then none
      else
        match rest.dropWhile isWordOrHyphen with
        | [] => none
        | c1 :: rest2 =>
          if c1 = '/' then
            if rest2.takeWhile isWordOrHyphen = [] then none
            else
              match rest2.dropWhile isWordOrHyphen with
              | [] => none
              | c2 :: rest3 =>
                if c2 = ']' then
                  match stripLit litRunFailed rest3 with
                  | none => none
                  | some rest4 =>
                    match lazyWorkflow rest4 with
                    | none => none
                    | some w =>
                      some (rest.takeWhile isWordOrHyphen ++ '/' :: rest2.takeWhile isWordOrHyphen, w)
                else none
          else none
    else none

/-- Embedding of `re.search` for this pattern: try every starting position
from the left and return the first successful match. -/
def reSearch : List Char → Option (List Char × List Char)
  | [] => none
  | c :: rest =>
    match matchAt (c :: rest) with
    | some r => some r
    | none => reSearch rest

/-- The dictionary built and returned by `parse_github_email` on a match. -/
structure FailureRecord where
  type : String
  repo : String
  workflow : String
  snippet : String
deriving DecidableEq

/-- Embedding of `parse_github_email(snippet, body)`.  The `body` argument is
accepted and unused, exactly as in the source.  On a match the function
returns the structured record; otherwise it returns `None`. -/
def parse_github_email (snippet : String) (body : String) : Option FailureRecord :=
  match reSearch snippet.toList with
  | some (repoChars, workflowChars) =>
    some { type := "github_action_failure"
           repo := repoChars.asString
           workflow := workflowChars.asString
           snippet := snippet }
  | none => none

/-!  Embedding of `check_workflow_status`. -/

/-- One element of the JSON list printed by the external tool; the source
reads the record's conclusion field with a defaulting lookup, so the field
may be absent. -/
structure RunRecord where
  conclusion : Option String
deriving DecidableEq

/-- Outcome of the `subprocess.run` invocation of the external `gh` tool:
either spawning raised an exception, or the process ran with some exit code
and its standard output either parsed as a JSON list of records or failed to
parse (`none` covers a `json.loads` exception or output of the wrong shape,
both of which end in the `except` branch or the fall-through false). -/
inductive GhOutcome where
  | spawnError
  | ran (returncode : Int) (parsed : Option (List RunRecord))
deriving DecidableEq

/-- Embedding of `check_workflow_status(repo, workflow_name)`.  `gh` gives
the outcome of the external invocation for each repository and workflow.
Every exception path of the source (spawn failure, parse failure) is caught
by its `except` clause and returns `False`; the function never raises. -/
def check_workflow_status (gh : String → String → GhOutcome) (repo : String)
    (workflow_name : String) : Bool :=
  match gh repo workflow_name with
  | .spawnError => false
  | .ran returncode parsed =>
    if returncode = 0 then
      match parsed with
      | some (r :: _) => if r.conclusion = some "success" then true else false
      | some [] => false
      | none => false
    else false

/-!  Embedding of the Gmail side: messages, the service environment, and the
ordered trace of the external calls the script performs. -/

/-- An error raised by the Gmail client (`googleapiclient.errors.HttpError`). -/
structure HttpError where
  message : String
deriving DecidableEq

/-- The relevant parts of a fetched Gmail message: its snippet and the header
list of its payload (each header is a name-value pair). -/
structure GmailMessage where
  snippet : String
  headers : List (String × String)
deriving DecidableEq

/-- The environment a run executes against: the outcome of the mailbox list
query, of each per-message get, of each labels-modify call, of each external
status invocation, and whether authentication produced a service handle. -/
structure GmailEnv where
  authOk : Bool
  listResult : Except HttpError (List String)
  getMsg : String → Except HttpError GmailMessage
  gh : String → String → GhOutcome
  modifyResult : String → List String → Except HttpError Unit

/-- One external call made by the script, in order: a per-message fetch, a
workflow status check, or a labels-modify request carrying the label ids the
request asks the mailbox to remove. -/
inductive GmailCall where
  | fetch (id : String)
  | check (repo : String) (workflow : String)
  | modifyLabels (id : String) (removeLabelIds : List String)
deriving DecidableEq

/-- Embedding of `mark_as_read`: one modify call asking the mailbox to remove
the UNREAD label.  The call is made exactly once; an `HttpError` outcome is
caught inside the function and only logged, so both outcomes yield the same
trace and nothing propagates to the caller. -/
def mark_as_read (env : GmailEnv) (msg_id : String) : List GmailCall :=
  match env.modifyResult msg_id ["UNREAD"] with
  | .ok _ => [.modifyLabels msg_id ["UNREAD"]]
  | .error _ => [.modifyLabels msg_id ["UNREAD"]]

/-- Embedding of `archive_message`: one modify call asking the mailbox to
remove the INBOX label, with the same catch-and-log error handling. -/
def archive_message (env : GmailEnv) (msg_id : String) : List GmailCall :=
  match env.modifyResult msg_id ["INBOX"] with
  | .ok _ => [.modifyLabels msg_id ["INBOX"]]
  | .error _ => [.modifyLabels msg_id ["INBOX"]]

/-- The subject extraction of the loop body: the value of the first header
named Subject, with the source's Spanish fallback when none exists. -/
def subjectOf (headers : List (String × String)) : String :=
  match headers.find? (fun h => h.fst == "Subject") with
  | some h => h.snd
  | none => "Sin Asunto"

/-- The body of the per-message loop iteration after a successful fetch:
parse the subject-plus-snippet text; on a record, consult the status checker
and archive when it reports passing, otherwise mark read; on no record, mark
read. -/
def handleMessage (env : GmailEnv) (msgId : String) (msg : GmailMessage) : List GmailCall :=
  match parse_github_email (subjectOf msg.headers ++ " " ++ msg.snippet) ("") with
  | some issue =>
    if check_workflow_status env.gh issue.repo issue.workflow then
      .check issue.repo issue.workflow :: archive_message env msgId
    else
      .check issue.repo issue.workflow :: mark_as_read env msgId
  | none => mark_as_read env msgId

/-- The `for` loop of `process_messages`.  A failing per-message get raises
`HttpError`, which is caught only by the single handler wrapping the whole
loop: the run logs the error and stops, so nothing after the failing fetch is
executed. -/
def processLoop (env : GmailEnv) : List String → List GmailCall
  | [] => []
  | msgId :: rest =>
    match env.getMsg msgId with
    | .error _ => [.fetch msgId]
    | .ok msg => .fetch msgId :: (handleMessage env msgId msg ++ processLoop env rest)

/-- Embedding of `process_messages`: the list query runs first; an
`HttpError` from it is caught by the same handler (logged, nothing else
happens), an empty result returns early, and otherwise the loop runs. -/
def process_messages (env : GmailEnv) : List GmailCall :=
  match env.listResult with
  | .error _ => []
  | .ok messages => if messages.isEmpty then [] else processLoop env messages

/-- Embedding of the `__main__` block: the two command-line flags are parsed
and logged but neither is passed to `process_messages`; the loop runs exactly
when authentication yields a service handle. -/
def mainEntry (env : GmailEnv) (max_emails : Nat) (dry_run : Bool) : List GmailCall :=
  if env.authOk then process_messages env else []

/-- The mailbox mutation requests contained in a trace. -/
def isMutation : GmailCall → Bool
  | .modifyLabels _ _ => true
  | _ => false

/-- Restriction of a trace to its mailbox mutation requests. -/
def mutationCalls (trace : List GmailCall) : List GmailCall :=
  trace.filter isMutation

/-!  The mailbox state a modify request acts on.  The message entity itself
is owned by Gmail, outside this repository, so its reaction to a modify
request is taken from the specification rather than from `src/`. -/

/-- A message as the mailbox stores it: a label set plus its other content. -/
structure MsgState where
  labels : List String
  subject : String
  snippet : String
deriving DecidableEq

/-- The body of a modify request as the source builds it: only a list of
label ids to remove. -/
structure ModifyBody where
  removeLabelIds : List String
deriving DecidableEq

/-- Modelled from the spec: the mailbox (a Gmail service external to `src/`)
answers a modify request by removing the requested label ids from the
message's label set and leaving every other part of the message alone. -/
def applyModify (m : MsgState) (body : ModifyBody) : MsgState :=
  { m with labels := m.labels.filter (fun l => !(body.removeLabelIds.contains l)) }

/-- The request body sent by `mark_as_read`. -/
def markReadBody : ModifyBody := { removeLabelIds := ["UNREAD"] }

/-- The request body sent by `archive_message`. -/
def archiveBody : ModifyBody := { removeLabelIds := ["INBOX"] }

/-!  Auxiliary predicates used to state the extractor claims. -/

/-- Does the terminator, a space then a hyphen, occur anywhere in the list? -/
def containsTerm : List Char → Bool
  | [] => false
  | c :: rest => startsWithTerm (c :: rest) || containsTerm rest

/-- No occurrence of the terminator starts at position one or later: on such
a workflow string the lazy group cannot stop early. -/
def noInnerTerm : List Char → Bool
  | [] => true
  | _ :: rest => !(containsTerm rest)

/-- A text has the shape the specification describes for the extractor: a
bracketed owner-slash-name token of word-or-hyphen characters, the fixed
literal, and a non-empty newline-free workflow name followed by the
space-hyphen terminator. -/
def specHasShape (s : List Char) : Prop :=
  ∃ pre a b w post,
    s = pre ++ '[' :: (a ++ '/' :: (b ++ ']' :: (litRunFailed ++ (w ++ ' ' :: '-' :: post)))) ∧
    a ≠ [] ∧ a.all isWordOrHyphen = true ∧
    b ≠ [] ∧ b.all isWordOrHyphen = true ∧
    w ≠ [] ∧ w.all (fun c => c != '\n') = true

/-!  Concrete fixtures used by witness theorems. -/

/-- A message whose text matches no failure pattern. -/
def msgUnrelated : GmailMessage :=
  { snippet := "", headers := [("Subject", "Random unrelated subject")] }

/-- A message whose subject names a repository with a period in it, a
character outside the word-or-hyphen class of the pattern. -/
def msgDotRepo : GmailMessage :=
  { snippet := "", headers := [("Subject", "[owner/repo.js] Run failed: CI - main (sha)")] }

/-- A message for the passing-workflow scenario. -/
def msgCiFailure : GmailMessage :=
  { snippet := "", headers := [("Subject", "[iberi22/domus-otec] Run failed: CI - main (c33f718)")] }

/-- An environment whose mailbox holds one unrelated message and whose
mutations succeed. -/
def envUnrelated : GmailEnv :=
  { authOk := true
    listResult := .ok ["m1"]
    getMsg := fun _ => .ok msgUnrelated
    gh := fun _ _ => .spawnError
    modifyResult := fun _ _ => .ok () }

/-- An environment whose list query raises a transport error. -/
def envListError : GmailEnv :=
  { authOk := true
    listResult := .error { message := "boom" }
    getMsg := fun _ => .ok msgUnrelated
    gh := fun _ _ => .spawnError
    modifyResult := fun _ _ => .ok () }

/-- An environment whose per-message get raises a transport error. -/
def envGetError : GmailEnv :=
  { authOk := true
    listResult := .ok ["m1", "m2"]
    getMsg := fun _ => .error { message := "lost" }
    gh := fun _ _ => .spawnError
    modifyResult := fun _ _ => .ok () }

/-- An environment whose modify calls all raise a transport error. -/
def envModifyError : GmailEnv :=
  { authOk := true
    listResult := .ok ["m1"]
    getMsg := fun _ => .ok msgUnrelated
    gh := fun _ _ => .spawnError
    modifyResult := fun _ _ => .error { message := "denied" } }

/-- An environment holding the period-repository message. -/
def envDotRepo : GmailEnv :=
  { authOk := true
    listResult := .ok ["m9"]
    getMsg := fun _ => .ok msgDotRepo
    gh := fun _ _ => .spawnError
    modifyResult := fun _ _ => .ok () }

/-- An environment holding the CI-failure message, whose status tool reports
a successful latest run for every pair. -/
def envCiPassing : GmailEnv :=
  { authOk := true
    listResult := .ok ["m2"]
    getMsg := fun _ => .ok msgCiFailure
    gh := fun _ _ => .ran 0 (some [{ conclusion := some "success" }])
    modifyResult := fun _ _ => .ok () }

/-!  Helper lemmas about the embedded pattern matcher. -/

theorem takeWhile_run (p : Char → Bool) (a : List Char) (c : Char) (r : List Char)
    (ha : a.all p = true) (hc : p c = false) :
    (a ++ c :: r).takeWhile p = a ∧ (a ++ c :: r).dropWhile p = c :: r := by
  induction a with
  | nil =>
    refine ⟨List.takeWhile_cons_of_neg ?_, List.dropWhile_cons_of_neg ?_⟩ <;> simp [hc]
  | cons d a' ih =>
    simp only [List.all_cons, Bool.and_eq_true] at ha
    have h := ih ha.2
    constructor
    · rw [List.cons_append, List.takeWhile_cons_of_pos ha.1, h.1]
    · rw [List.cons_append, List.dropWhile_cons_of_pos ha.1, h.2]

theorem stripLit_self (l r : List Char) : stripLit l (l ++ r) = some r := by
  induction l with
  | nil => rfl
  | cons c ls ih => simp [stripLit, ih]

theorem stripLit_eq_some (l : List Char) : ∀ s r : List Char,
    stripLit l s = some r → s = l ++ r := by
  induction l with
  | nil =>
    intro s r h
    simp only [stripLit, Option.some.injEq] at h
    simpa using h
  | cons c ls ih =>
    intro s r h
    cases s with
    | nil => simp [stripLit] at h
    | cons d s' =>
      simp only [stripLit] at h
      split at h
      · next hd =>
        subst hd
        simpa using ih s' r h
      · exact absurd h (by simp)

theorem startsWithTerm_iff (s : List Char) :
    startsWithTerm s = true ↔ ∃ rest, s = ' ' :: '-' :: rest := by
  cases s with
  | nil => simp [startsWithTerm]
  | cons c1 s1 =>
    cases s1 with
    | nil => simp [startsWithTerm]
    | cons c2 s2 =>
      simp only [startsWithTerm, Bool.and_eq_true, beq_iff_eq]
      constructor
      · rintro ⟨h1, h2⟩
        subst h1; subst h2
        exact ⟨s2, rfl⟩
      · rintro ⟨rest, h⟩
        injection h with h1 h
        injection h with h2 h
        exact ⟨h1, h2⟩

theorem lazyWorkflow_complete (w : List Char) : ∀ post : List Char, w ≠ [] →
    w.all (fun c => c != '\n') = true → noInnerTerm w = true →
    lazyWorkflow (w ++ ' ' :: '-' :: post) = some w := by
  induction w with
  | nil => intro post hw _ _; exact absurd rfl hw
  | cons c w' ih =>
    intro post _ hnl hterm
    simp only [List.all_cons, Bool.and_eq_true, bne_iff_ne, ne_eq] at hnl
    simp only [List.cons_append, lazyWorkflow]
    rw [if_neg hnl.1]
    cases w' with
    | nil =>
      rw [if_pos (by simp [startsWithTerm])]
    | cons d w'' =>
      have hct : containsTerm (d :: w'') = false := by
        have := hterm
        simp only [noInnerTerm, Bool.not_eq_true'] at this
        exact this
      have hsw : startsWithTerm (d :: w'') = false := by
        cases hc : startsWithTerm (d :: w'')
        · rfl
        · rw [containsTerm, hc] at hct; simp at hct
      have hct' : containsTerm w'' = false := by
        rw [containsTerm, hsw] at hct; simpa using hct
      have hfalse : startsWithTerm (d :: (w'' ++ ' ' :: '-' :: post)) = false := by
        cases w'' with
        | nil =>
          have hsp : (' ' == '-') = false := by decide
          simp [startsWithTerm, hsp]
        | cons e w''' =>
          simp only [startsWithTerm] at hsw ⊢
          exact hsw
      rw [if_neg (by simp [hfalse])]
      have ih' := ih post (by simp) hnl.2 (by simp [noInnerTerm, hct'])
      rw [List.cons_append] at ih'
      simp only [List.append_eq, List.cons_append]
      rw [ih']
      rfl

theorem lazyWorkflow_sound (s : List Char) : ∀ w : List Char, lazyWorkflow s = some w →
    ∃ post, s = w ++ ' ' :: '-' :: post ∧ w ≠ [] ∧ w.all (fun c => c != '\n') = true := by
  induction s with
  | nil => intro w h; simp [lazyWorkflow] at h
  | cons c rest ih =>
    intro w h
    simp only [lazyWorkflow] at h
    split at h
    · exact absurd h (by simp)
    next hnl =>
    split at h
    next hterm =>
      injection h with h
      subst h
      obtain ⟨post, hrest⟩ := (startsWithTerm_iff rest).mp hterm
      exact ⟨post, by simp [hrest], by simp, by simp [hnl]⟩
    next hterm =>
      cases hlw : lazyWorkflow rest with
      | none => rw [hlw] at h; simp at h
      | some w' =>
        rw [hlw] at h
        simp only [Option.map_some'] at h
        injection h with h
        obtain ⟨post, h1, h2, h3⟩ := ih w' hlw
        subst h
        exact ⟨post, by simp [h1], by simp, by simp [hnl, h3]⟩

theorem matchAt_not_bracket (c : Char) (l : List Char) (hc : ¬ c = '[') :
    matchAt (c :: l) = none := by
  simp [matchAt, hc]

theorem matchAt_complete (a b w post : List Char)
    (ha : a ≠ []) (ha2 : a.all isWordOrHyphen = true)
    (hb : b ≠ []) (hb2 : b.all isWordOrHyphen = true)
    (hw : w ≠ []) (hnl : w.all (fun c => c != '\n') = true) (hterm : noInnerTerm w = true) :
    matchAt ('[' :: (a ++ '/' :: (b ++ ']' :: (litRunFailed ++ (w ++ ' ' :: '-' :: post))))) =
      some (a ++ '/' :: b, w) := by
  have hslash : isWordOrHyphen '/' = false := by decide
  have hrb : isWordOrHyphen ']' = false := by decide
  have hA := takeWhile_run isWordOrHyphen a '/'
    (b ++ ']' :: (litRunFailed ++ (w ++ ' ' :: '-' :: post))) ha2 hslash
  have hB := takeWhile_run isWordOrHyphen b ']'
    (litRunFailed ++ (w ++ ' ' :: '-' :: post)) hb2 hrb
  simp only [matchAt, if_pos rfl, hA.1, hA.2, hB.1, hB.2, if_neg ha, if_neg hb,
    if_pos rfl, stripLit_self, lazyWorkflow_complete w post hw hnl hterm, if_true]

theorem matchAt_sound (s : List Char) (repo w : List Char)
    (h : matchAt s = some (repo, w)) :
    ∃ a b post, s = '[' :: (a ++ '/' :: (b ++ ']' :: (litRunFailed ++ (w ++ ' ' :: '-' :: post)))) ∧
      repo = a ++ '/' :: b ∧ a ≠ [] ∧ a.all isWordOrHyphen = true ∧
      b ≠ [] ∧ b.all isWordOrHyphen = true ∧ w ≠ [] ∧ w.all (fun c => c != '\n') = true := by
  cases s with
  | nil => simp [matchAt] at h
  | cons c0 rest =>
    simp only [matchAt] at h
    split at h
    case isFalse => exact absurd h (by simp)
    case isTrue h0 =>
    subst h0
    split at h
    case isTrue => exact absurd h (by simp)
    case isFalse hA =>
    split at h
    case h_1 => exact absurd h (by simp)
    case h_2 c1 rest2 hD =>
    split at h
    case isFalse => exact absurd h (by simp)
    case isTrue h1 =>
    subst h1
    split at h
    case isTrue => exact absurd h (by simp)
    case isFalse hB =>
    split at h
    case h_1 => exact absurd h (by simp)
    case h_2 c2 rest3 hD2 =>
    split at h
    case isFalse => exact absurd h (by simp)
    case isTrue h2 =>
    subst h2
    split at h
    case h_1 => exact absurd h (by simp)
    case h_2 rest4 hStrip =>
    split at h
    case h_1 => exact absurd h (by simp)
    case h_2 w' hLazy =>
    simp only [Option.some.injEq, Prod.mk.injEq] at h
    obtain ⟨hrepo, hww⟩ := h
    rw [hww] at hLazy
    obtain ⟨post, hpost, hwne, hwnl⟩ := lazyWorkflow_sound rest4 w hLazy
    have hc1 : rest = rest.takeWhile isWordOrHyphen ++ '/' :: rest2 := by
      conv_lhs => rw [← List.takeWhile_append_dropWhile (p := isWordOrHyphen) (l := rest)]
      rw [hD]
    have hc2 : rest2 = rest2.takeWhile isWordOrHyphen ++ ']' :: rest3 := by
      conv_lhs => rw [← List.takeWhile_append_dropWhile (p := isWordOrHyphen) (l := rest2)]
      rw [hD2]
    have hc3 : rest3 = litRunFailed ++ rest4 := stripLit_eq_some litRunFailed rest3 rest4 hStrip
    have hall1 : (rest.takeWhile isWordOrHyphen).all isWordOrHyphen = true := List.all_takeWhile
    have hall2 : (rest2.takeWhile isWordOrHyphen).all isWordOrHyphen = true := List.all_takeWhile
    set A := rest.takeWhile isWordOrHyphen with hAdef
    set B := rest2.takeWhile isWordOrHyphen with hBdef
    refine ⟨A, B, post, ?_, hrepo.symm, hA, hall1, hB, hall2, hwne, hwnl⟩
    rw [List.cons.injEq]
    refine ⟨rfl, ?_⟩
    rw [hc1, hc2, hc3, hpost]

theorem reSearch_skip (pre : List Char) (s : List Char)
    (hpre : pre.all (fun c => c != '[') = true) :
    reSearch (pre ++ s) = reSearch s := by
  induction pre with
  | nil => rfl
  | cons c pre' ih =>
    simp only [List.all_cons, Bool.and_eq_true, bne_iff_ne, ne_eq] at hpre
    rw [List.cons_append, reSearch, matchAt_not_bracket c (pre' ++ s) hpre.1, ih hpre.2]

theorem reSearch_of_matchAt (s : List Char) (r : List Char × List Char)
    (h : matchAt s = some r) : reSearch s = some r := by
  cases s with
  | nil => simp [matchAt] at h
  | cons c rest => rw [reSearch, h]

theorem reSearch_sound (s : List Char) : ∀ repo w : List Char,
    reSearch s = some (repo, w) →
    ∃ pre rest, s = pre ++ rest ∧ matchAt rest = some (repo, w) := by
  induction s with
  | nil => intro repo w h; simp [reSearch] at h
  | cons c rest ih =>
    intro repo w h
    rw [reSearch] at h
    cases hm : matchAt (c :: rest) with
    | some r =>
      rw [hm] at h
      injection h with h
      subst h
      exact ⟨[], c :: rest, by simp, hm⟩
    | none =>
      rw [hm] at h
      obtain ⟨pre, rest', h1, h2⟩ := ih repo w h
      exact ⟨c :: pre, rest', by simp [h1], h2⟩

/-!  Helper lemmas about the loop embedding. -/

theorem mark_as_read_eq (env : GmailEnv) (msg_id : String) :
    mark_as_read env msg_id = [.modifyLabels msg_id ["UNREAD"]] := by
  unfold mark_as_read
  cases env.modifyResult msg_id ["UNREAD"] <;> rfl

theorem archive_message_eq (env : GmailEnv) (msg_id : String) :
    archive_message env msg_id = [.modifyLabels msg_id ["INBOX"]] := by
  unfold archive_message
  cases env.modifyResult msg_id ["INBOX"] <;> rfl

theorem handleMessage_mutations (env : GmailEnv) (msgId : String) (msg : GmailMessage)
    (id : String) (labs : List String)
    (h : GmailCall.modifyLabels id labs ∈ handleMessage env msgId msg) :
    labs = ["UNREAD"] ∨ labs = ["INBOX"] := by
  unfold handleMessage at h
  split at h
  · split at h
    · rw [archive_message_eq] at h
      simp only [List.mem_cons, List.not_mem_nil, or_false,
        GmailCall.modifyLabels.injEq] at h
      rcases h with h | ⟨h1, h2⟩
      · exact absurd h (by simp)
      · exact Or.inr h2
    · rw [mark_as_read_eq] at h
      simp only [List.mem_cons, List.not_mem_nil, or_false,
        GmailCall.modifyLabels.injEq] at h
      rcases h with h | ⟨h1, h2⟩
      · exact absurd h (by simp)
      · exact Or.inl h2
  · rw [mark_as_read_eq] at h
    simp only [List.mem_cons, List.not_mem_nil, or_false,
      GmailCall.modifyLabels.injEq] at h
    exact Or.inl h.2

theorem processLoop_mutations (env : GmailEnv) (mids : List String) (id : String)
    (labs : List String) (h : GmailCall.modifyLabels id labs ∈ processLoop env mids) :
    labs = ["UNREAD"] ∨ labs = ["INBOX"] := by
  induction mids with
  | nil => simp [processLoop] at h
  | cons m rest ih =>
    rw [processLoop] at h
    cases hg : env.getMsg m with
    | error e =>
      rw [hg] at h
      simp at h
    | ok msg =>
      rw [hg] at h
      simp only [List.mem_cons, List.mem_append] at h
      rcases h with h | h | h
      · exact absurd h (by simp)
      · exact handleMessage_mutations env m msg id labs h
      · exact ih h

theorem process_messages_mutations (env : GmailEnv) (id : String) (labs : List String)
    (h : GmailCall.modifyLabels id labs ∈ process_messages env) :
    labs = ["UNREAD"] ∨ labs = ["INBOX"] := by
  unfold process_messages at h
  split at h
  · simp at h
  · split at h
    · simp at h
    · exact processLoop_mutations env _ id labs h

theorem list_filter_idem (l : List String) (p : String → Bool) :
    (l.filter p).filter p = l.filter p := by
  induction l with
  | nil => rfl
  | cons c rest ih => by_cases h : p c <;> simp [List.filter_cons, h, ih]

/-!  The claims. -/

/-- C1: for every repository and workflow name, `check_workflow_status`
returns true exactly when the external call exited with status zero, its
parsed output is a non-empty list, and the first element's conclusion field
equals the literal success string (case-sensitive); in every other case
(non-zero exit, empty list, other conclusion, malformed output, spawn or
parse exception) it returns false, and as a total boolean function it
propagates no exception to the caller. -/
theorem C1_status_checker_iff (gh : String → String → GhOutcome)
    (repo workflow_name : String) :
    check_workflow_status gh repo workflow_name = true ↔
      ∃ r rest, gh repo workflow_name = .ran 0 (some (r :: rest)) ∧
        r.conclusion = some "success" := by
  unfold check_workflow_status
  cases hgh : gh repo workflow_name with
  | spawnError => simp
  | ran rc parsed =>
    by_cases hrc : rc = 0
    · subst hrc
      cases parsed with
      | none => simp
      | some runs =>
        cases runs with
        | nil => simp
        | cons r0 rs =>
          by_cases hc : r0.conclusion = some "success" <;> simp [hc]
    · simp [hrc]

/-- C2 counterexample: the text below contains the bracketed token, the
literal phrase, and a workflow name followed by space-hyphen, but no
space-hyphen-space sequence, so by the claim the Extractor should return
nothing; instead it returns a record. -/
theorem C2_extractor_counterexample :
    parse_github_email ("[a/b] Run failed: W -") ("") =
      some { type := "github_action_failure", repo := "a/b", workflow := "W",
             snippet := "[a/b] Run failed: W -" } := by
  decide

/-- C2 (amended): the workflow name is terminated by a space-hyphen
sequence; a trailing space after the hyphen is not required.  For every text
containing the shape (bracketed word-or-hyphen owner slash name, the literal
phrase, a non-empty newline-free workflow, then space-hyphen), taking the
first such occurrence (no earlier opening bracket, no earlier terminator
inside the workflow), the Extractor returns the record with that repository
and workflow; for every text lacking the shape it returns nothing. -/
theorem C2_extractor_amended :
    (∀ (s body : String) (pre a b w post : List Char),
      s.toList = pre ++ '[' :: (a ++ '/' :: (b ++ ']' ::
        (litRunFailed ++ (w ++ ' ' :: '-' :: post)))) →
      pre.all (fun c => c != '[') = true →
      a ≠ [] → a.all isWordOrHyphen = true →
      b ≠ [] → b.all isWordOrHyphen = true →
      w ≠ [] → w.all (fun c => c != '\n') = true → noInnerTerm w = true →
      parse_github_email s body =
        some { type := "github_action_failure", repo := (a ++ '/' :: b).asString,
               workflow := w.asString, snippet := s }) ∧
    (∀ s body : String, ¬ specHasShape s.toList → parse_github_email s body = none) := by
  constructor
  · intro s body pre a b w post hs hpre ha ha2 hb hb2 hw hnl hterm
    unfold parse_github_email
    rw [hs, reSearch_skip pre _ hpre,
      reSearch_of_matchAt _ _ (matchAt_complete a b w post ha ha2 hb hb2 hw hnl hterm)]
  · intro s body hshape
    unfold parse_github_email
    cases hr : reSearch s.toList with
    | none => rfl
    | some r =>
      obtain ⟨repoChars, wChars⟩ := r
      obtain ⟨pre, rest, h1, h2⟩ := reSearch_sound s.toList repoChars wChars hr
      obtain ⟨a, b, post, h3, h4, ha, ha2, hb, hb2, hw, hnl⟩ :=
        matchAt_sound rest repoChars wChars h2
      exact absurd ⟨pre, a, b, wChars, post, by rw [h1, h3], ha, ha2, hb, hb2, hw, hnl⟩ hshape

/-- C2 witness: the amended positive direction applied to a concrete text
with a leading non-bracket prefix. -/
theorem C2_extractor_witness :
    parse_github_email ("x [iberi22/domus-otec] Run failed: CI - main (c33f718)") ("") =
      some { type := "github_action_failure", repo := "iberi22/domus-otec",
             workflow := "CI",
             snippet := "x [iberi22/domus-otec] Run failed: CI - main (c33f718)" } := by
  have h := C2_extractor_amended.1
    ("x [iberi22/domus-otec] Run failed: CI - main (c33f718)") ("")
    ("x ".toList) ("iberi22".toList) ("domus-otec".toList) ("CI".toList)
    (" main (c33f718)".toList)
    (by decide) (by decide) (by decide) (by decide) (by decide) (by decide)
    (by decide) (by decide) (by decide)
  rw [h]
  rfl

/-- C3: per processed message, a parse miss leads to exactly a mark-read
call with the checker never invoked; a parsed record with a passing check
leads to the check call then exactly an archive call and no mark-read; a
parsed record with a non-passing check leads to the check call then exactly
a mark-read call and no archive. -/
theorem C3_dispatcher_cases (env : GmailEnv) (msgId : String) (msg : GmailMessage)
    (issue : FailureRecord) :
    (parse_github_email (subjectOf msg.headers ++ " " ++ msg.snippet) ("") = none →
      handleMessage env msgId msg = [.modifyLabels msgId ["UNREAD"]]) ∧
    (parse_github_email (subjectOf msg.headers ++ " " ++ msg.snippet) ("") = some issue →
      check_workflow_status env.gh issue.repo issue.workflow = true →
      handleMessage env msgId msg =
        [.check issue.repo issue.workflow, .modifyLabels msgId ["INBOX"]]) ∧
    (parse_github_email (subjectOf msg.headers ++ " " ++ msg.snippet) ("") = some issue →
      check_workflow_status env.gh issue.repo issue.workflow = false →
      handleMessage env msgId msg =
        [.check issue.repo issue.workflow, .modifyLabels msgId ["UNREAD"]]) := by
  refine ⟨fun hp => ?_, fun hp hst => ?_, fun hp hst => ?_⟩
  · unfold handleMessage
    rw [hp, mark_as_read_eq]
  · unfold handleMessage
    rw [hp]
    simp only [hst, if_true, archive_message_eq]
  · unfold handleMessage
    rw [hp]
    simp only [hst, if_false, Bool.false_eq_true, mark_as_read_eq]

/-- C3 witness: the unstructured message is marked read with no check, and
the passing CI-failure message is archived. -/
theorem C3_dispatcher_witness :
    handleMessage envUnrelated ("m1") msgUnrelated = [.modifyLabels ("m1") ["UNREAD"]] ∧
    handleMessage envCiPassing ("m2") msgCiFailure =
      [.check ("iberi22/domus-otec") ("CI"), .modifyLabels ("m2") ["INBOX"]] :=
  ⟨(C3_dispatcher_cases envUnrelated ("m1") msgUnrelated
      { type := "", repo := "", workflow := "", snippet := "" }).1 (by decide),
   (C3_dispatcher_cases envCiPassing ("m2") msgCiFailure
      { type := "github_action_failure", repo := "iberi22/domus-otec", workflow := "CI",
        snippet := "[iberi22/domus-otec] Run failed: CI - main (c33f718) " }).2.1
      (by decide) (by decide)⟩

/-- C4: the dry-run flag is parsed and logged but never reaches the loop, so
a run with the flag performs exactly the same mailbox mutation calls as a
run without it, against every environment. -/
theorem C4_dry_run_no_gating (env : GmailEnv) (max_emails : Nat) :
    mutationCalls (mainEntry env max_emails true) =
      mutationCalls (mainEntry env max_emails false) := rfl

/-- C5: when the mailbox list query raises a transport error, the handler
wrapping the whole body catches it, and the run performs no call at all: no
fetch, no status check, no mutation. -/
theorem C5_list_error_aborts (env : GmailEnv) (e : HttpError)
    (h : env.listResult = .error e) : process_messages env = [] := by
  unfold process_messages
  rw [h]

/-- C5 witness. -/
theorem C5_list_error_witness : process_messages envListError = [] :=
  C5_list_error_aborts envListError { message := "boom" } rfl

/-- C6: archive removes exactly the INBOX label and mark-read exactly the
UNREAD label, leaving every other label and every other message field
unchanged; and every mutation any run ever issues is one of those two label
removals. -/
theorem C6_label_mutations_frame (m : MsgState) (l : String) (env : GmailEnv) :
    ((l ∈ (applyModify m archiveBody).labels ↔ l ∈ m.labels ∧ l ≠ "INBOX") ∧
     (l ∈ (applyModify m markReadBody).labels ↔ l ∈ m.labels ∧ l ≠ "UNREAD")) ∧
    ((applyModify m archiveBody).subject = m.subject ∧
     (applyModify m archiveBody).snippet = m.snippet ∧
     (applyModify m markReadBody).subject = m.subject ∧
     (applyModify m markReadBody).snippet = m.snippet) ∧
    (∀ id labs, GmailCall.modifyLabels id labs ∈ process_messages env →
      labs = ["UNREAD"] ∨ labs = ["INBOX"]) := by
  refine ⟨⟨?_, ?_⟩, ⟨rfl, rfl, rfl, rfl⟩, fun id labs h => process_messages_mutations env id labs h⟩
  · simp [applyModify, archiveBody, List.mem_filter]
  · simp [applyModify, markReadBody, List.mem_filter]

/-- C6 witness: a run whose trace contains a mutation, and that mutation is
one of the two permitted label removals. -/
theorem C6_label_mutations_witness :
    GmailCall.modifyLabels ("m1") ["UNREAD"] ∈ process_messages envUnrelated ∧
    ((["UNREAD"] : List String) = ["UNREAD"] ∨ (["UNREAD"] : List String) = ["INBOX"]) :=
  ⟨by decide,
   (C6_label_mutations_frame { labels := [], subject := "", snippet := "" } ("")
      envUnrelated).2.2 ("m1") ["UNREAD"] (by decide)⟩

/-- C7: for every message state, applying the archive mutation twice yields
the same label state as applying it once, and likewise for mark-read. -/
theorem C7_mutations_idempotent (m : MsgState) :
    applyModify (applyModify m archiveBody) archiveBody = applyModify m archiveBody ∧
    applyModify (applyModify m markReadBody) markReadBody = applyModify m markReadBody := by
  constructor <;> simp [applyModify, list_filter_idem]

/-- C8: a failing modify call is caught inside the mutation function, which
still performs the call exactly once (no retry) and returns normally, and
the loop goes on to the remaining messages. -/
theorem C8_mutation_failure_contained (env : GmailEnv) (msgId : String)
    (rest : List String) (msg : GmailMessage) (e e2 : HttpError) :
    (env.modifyResult msgId ["UNREAD"] = .error e →
      mark_as_read env msgId = [.modifyLabels msgId ["UNREAD"]]) ∧
    (env.modifyResult msgId ["INBOX"] = .error e2 →
      archive_message env msgId = [.modifyLabels msgId ["INBOX"]]) ∧
    (env.getMsg msgId = .ok msg →
      processLoop env (msgId :: rest) =
        .fetch msgId :: (handleMessage env msgId msg ++ processLoop env rest)) := by
  refine ⟨fun _ => mark_as_read_eq env msgId, fun _ => archive_message_eq env msgId,
    fun hg => ?_⟩
  rw [processLoop, hg]

/-- C8 witness: against an environment whose modify calls all fail. -/
theorem C8_mutation_failure_witness :
    mark_as_read envModifyError ("m1") = [.modifyLabels ("m1") ["UNREAD"]] ∧
    archive_message envModifyError ("m1") = [.modifyLabels ("m1") ["INBOX"]] ∧
    processLoop envModifyError ["m1"] =
      .fetch ("m1") :: (handleMessage envModifyError ("m1") msgUnrelated ++
        processLoop envModifyError []) := by
  obtain ⟨h1, h2, h3⟩ := C8_mutation_failure_contained envModifyError ("m1") []
    msgUnrelated { message := "denied" } { message := "denied" }
  exact ⟨h1 rfl, h2 rfl, h3 rfl⟩

/-- C9: any record the Extractor produces has a repository made of two
non-empty word-or-hyphen runs joined by a slash; the concrete text whose
repository contains a period yields no record, and the message carrying it
is marked read with no status check. -/
theorem C9_repo_charclass :
    (∀ (s body : String) (r : FailureRecord), parse_github_email s body = some r →
      ∃ a b, r.repo = (a ++ '/' :: b).asString ∧ a ≠ [] ∧ a.all isWordOrHyphen = true ∧
        b ≠ [] ∧ b.all isWordOrHyphen = true) ∧
    parse_github_email ("[owner/repo.js] Run failed: CI - main (sha)") ("") = none ∧
    handleMessage envDotRepo ("m9") msgDotRepo = [.modifyLabels ("m9") ["UNREAD"]] := by
  refine ⟨?_, by decide, by decide⟩
  intro s body r h
  unfold parse_github_email at h
  cases hr : reSearch s.toList with
  | none => rw [hr] at h; exact absurd h (by simp)
  | some pr =>
    obtain ⟨repoChars, wChars⟩ := pr
    rw [hr] at h
    simp only [Option.some.injEq] at h
    obtain ⟨pre, rest, h1, h2⟩ := reSearch_sound s.toList repoChars wChars hr
    obtain ⟨a, b, post, h3, h4, ha, ha2, hb, hb2, hw, hnl⟩ :=
      matchAt_sound rest repoChars wChars h2
    refine ⟨a, b, ?_, ha, ha2, hb, hb2⟩
    rw [← h, h4]

/-- C9 witness: the soundness direction applied to a record actually
produced by the Extractor. -/
theorem C9_repo_charclass_witness :
    ∃ a b, ("a/b" : String) = (a ++ '/' :: b).asString ∧ a ≠ [] ∧
      a.all isWordOrHyphen = true ∧ b ≠ [] ∧ b.all isWordOrHyphen = true := by
  have h := C9_repo_charclass.1 ("[a/b] Run failed: W - x") ("")
    { type := "github_action_failure", repo := "a/b", workflow := "W",
      snippet := "[a/b] Run failed: W - x" } (by decide)
  simpa using h

/-- C10: a transport error on a per-message fetch is caught only by the
single handler wrapping the loop, so the run performs that fetch and then
stops; no remaining message is processed. -/
theorem C10_get_error_aborts (env : GmailEnv) (msgId : String) (rest : List String)
    (e : HttpError) (h : env.getMsg msgId = .error e) :
    processLoop env (msgId :: rest) = [.fetch msgId] := by
  rw [processLoop, h]

/-- C10 witness. -/
theorem C10_get_error_witness : processLoop envGetError ["m1", "m2"] = [.fetch ("m1")] :=
  C10_get_error_aborts envGetError ("m1") ["m2"] { message := "lost" } rfl

end EmailHandler

